import Mathlib

/-!
# Verification of the email-forensic ingestion pipeline

Shallow embedding of `src/streamlit_email_forensics.py`:

* `parseMsgFiles` — the `.msg` batch decoder (`parse_msg_files`), with the
  external `MsOxMessage` parse modelled as an input that either yields a
  property map plus attachment list or raises.
* `emailFindall` / `phoneFindallPairs` — the body entity extraction
  (`re.findall` over the email and phone patterns, including Python's
  rule that `findall` returns the capture group when the pattern holds
  exactly one group).
* `passes` / `filterMessages` — the sidebar filter loop (module level,
  lines 357-380).
* `createSplitZips` — the size-bounded archive splitter (`create_split_zips`).

Dates are modelled as calendar structures; `datetime.fromisoformat` is
modelled by `parseIso` on the common `YYYY-MM-DD[ HH:MM:SS]` forms.
Byte strings are modelled as `List Nat`.
-/

namespace EmailForensics

/-- Raw bytes (Python `bytes`), one `Nat` per byte. -/
abbrev Data := List Nat

/-- A calendar date (the result of Python `datetime.date()`). -/
structure Date where
  year : Nat
  month : Nat
  day : Nat
deriving DecidableEq, Repr

/-- A timestamp (Python `datetime`): calendar date plus time of day. -/
structure DateTime where
  date : Date
  hour : Nat
  minute : Nat
  second : Nat
deriving DecidableEq, Repr

/-- Python `date` comparison `<` (lexicographic on year, month, day). -/
def dateLt (a b : Date) : Bool :=
  a.year < b.year ||
    (a.year == b.year && (a.month < b.month ||
      (a.month == b.month && a.day < b.day)))

/-- Digit character to its value. -/
def digitVal (c : Char) : Option Nat :=
  if c.isDigit then some (c.toNat - '0'.toNat) else none

/-- Two-digit decimal number. -/
def nat2 (a b : Char) : Option Nat := do
  let x ← digitVal a
  let y ← digitVal b
  pure (10 * x + y)

/-- Four-digit decimal number. -/
def nat4 (a b c d : Char) : Option Nat := do
  let x ← nat2 a b
  let y ← nat2 c d
  pure (100 * x + y)

/-- `YYYY-MM-DD` date component of an ISO string. -/
def parseIsoDate : List Char → Option Date
  | [y1, y2, y3, y4, '-', m1, m2, '-', d1, d2] => do
    let y ← nat4 y1 y2 y3 y4
    let m ← nat2 m1 m2
    let d ← nat2 d1 d2
    if 1 ≤ m ∧ m ≤ 12 ∧ 1 ≤ d ∧ d ≤ 31 then some ⟨y, m, d⟩ else none
  | _ => none

/-- `HH:MM:SS` time component of an ISO string. -/
def parseIsoTime : List Char → Option (Nat × Nat × Nat)
  | [h1, h2, ':', m1, m2, ':', s1, s2] => do
    let h ← nat2 h1 h2
    let m ← nat2 m1 m2
    let s ← nat2 s1 s2
    if h ≤ 23 ∧ m ≤ 59 ∧ s ≤ 59 then some (h, m, s) else none
  | _ => none

/-- Models Python `datetime.fromisoformat` on the common
`YYYY-MM-DD` and `YYYY-MM-DD HH:MM:SS` / `YYYY-MM-DDTHH:MM:SS` forms;
anything else is rejected (`None` via the `except` branch). -/
def parseIso (s : String) : Option DateTime :=
  let cs := s.data
  match parseIsoDate (cs.take 10) with
  | none => none
  | some d =>
    match cs.drop 10 with
    | [] => some ⟨d, 0, 0, 0⟩
    | sep :: timecs =>
      if sep = ' ' ∨ sep = 'T' then
        (parseIsoTime timecs).map (fun t => ⟨d, t.1, t.2.1, t.2.2⟩)
      else none

/-- A value held by the `DeliveryTime` / `SentOn` properties: either a
textual date or an already-parsed `datetime`. -/
inductive DateProp where
  | str (s : String)
  | dt (d : DateTime)
deriving DecidableEq, Repr

/-- The property map returned by `msg.get_properties()`; `none` models an
absent key. `To`/`Cc`/`Bcc` are lists of recipient strings. -/
structure MsgProps where
  deliveryTime : Option DateProp
  sentOn : Option DateProp
  subject : Option String
  senderName : Option String
  fromDisplayName : Option String
  toList : Option (List String)
  ccList : Option (List String)
  bccList : Option (List String)
  html : Option String
  body : Option String
deriving DecidableEq, Repr

/-- Python truthiness of a date property value (`""` is falsy, a
`datetime` is always truthy, an absent key yields falsy `None`). -/
def truthyDateProp : Option DateProp → Bool
  | none => false
  | some (.str s) => !(s == "")
  | some (.dt _) => true

/-- `props.get("DeliveryTime") or props.get("SentOn") or None`. -/
def dateCandidate (p : MsgProps) : Option DateProp :=
  if truthyDateProp p.deliveryTime then p.deliveryTime
  else if truthyDateProp p.sentOn then p.sentOn
  else none

/-- Lines 43-51: the decoded message date. A textual candidate goes
through `fromisoformat` (failure → `None`); a non-`datetime` result is
replaced by `None`. -/
def extractDate (p : MsgProps) : Option DateTime :=
  match dateCandidate p with
  | some (.dt d) => some d
  | some (.str s) => parseIso s
  | none => none

/-- `props.get("Subject", "")`. -/
def subjectOf (p : MsgProps) : String := p.subject.getD ""

/-- `props.get("SenderName", "") or props.get("FromDisplayName", "")`. -/
def senderOf (p : MsgProps) : String :=
  let a := p.senderName.getD ""
  if a = "" then p.fromDisplayName.getD "" else a

/-- `to_list + cc_list + bcc_list` after the `props.get(_, []) or []`
normalisation (an absent or empty field contributes no values). -/
def recipientValues (p : MsgProps) : List String :=
  p.toList.getD [] ++ p.ccList.getD [] ++ p.bccList.getD []

/-- Line 61: `recipients = ", ".join(to_list + cc_list + bcc_list)`. -/
def recipientsOf (p : MsgProps) : String :=
  String.intercalate ", " (recipientValues p)

/-- Lines 63-67: prefer the stripped HTML body, fall back to the stripped
plain-text body, else the empty string. -/
def bodyOf (p : MsgProps) : String :=
  let h := (p.html.getD "").trim
  let t := (p.body.getD "").trim
  if h = "" then t else h

/-! ## Entity extraction (lines 70-77)

A small backtracking matcher for the two concrete patterns.  A
"parser" maps the remaining characters to the list of
(consumed, rest) alternatives in the engine's backtracking priority
order; the scan takes the first alternative that lets the rest of the
pattern succeed, exactly as the regex engine does. -/

/-- Backtracking alternatives of one pattern piece: (consumed, rest)
pairs in priority order. -/
abbrev Parses := List Char → List (List Char × List Char)

/-- Match nothing. -/
def pEps : Parses := fun cs => [([], cs)]

/-- Match one character satisfying `p` (a character class). -/
def pCh (p : Char → Bool) : Parses := fun cs =>
  match cs with
  | [] => []
  | c :: rest => if p c then [([c], rest)] else []

/-- Sequencing: all combinations, outer alternative first. -/
def pThen (a b : Parses) : Parses := fun cs =>
  (a cs).flatMap (fun xr => (b xr.2).map (fun ys => (xr.1 ++ ys.1, ys.2)))

/-- Ordered alternation (`a` preferred). -/
def pOrElse (a b : Parses) : Parses := fun cs => a cs ++ b cs

/-- Greedy `?`: with the piece first, then without. -/
def pOpt (a : Parses) : Parses := pOrElse a pEps

/-- Exactly `n` repetitions. -/
def pRep : Nat → Parses → Parses
  | 0, _ => pEps
  | n + 1, a => pThen a (pRep n a)

/-- Greedy `{1,3}`: three repetitions preferred, then two, then one. -/
def pRep13 (a : Parses) : Parses :=
  pOrElse (pRep 3 a) (pOrElse (pRep 2 a) (pRep 1 a))

/-- Greedy `*` bounded by fuel (each use of `a` consumes at least one
character, so fuel = input length is enough): longest first. -/
def pStarF : Nat → Parses → Parses
  | 0, _ => pEps
  | n + 1, a => pOrElse (pThen a (pStarF n a)) pEps

/-- Greedy `+` bounded by fuel. -/
def pPlusF (n : Nat) (a : Parses) : Parses := pThen a (pStarF n a)

/-- Python `\w` (ASCII model: letters, digits, underscore). -/
def isWordChar (c : Char) : Bool := c.isAlpha || c.isDigit || c == '_'

/-- The class `[\w\.-]` of the email pattern. -/
def isEmailChar (c : Char) : Bool := isWordChar c || c == '.' || c == '-'

/-- Word-character test through an optional character (out of range
counts as a non-word character for `\b`). -/
def wordOpt : Option Char → Bool
  | none => false
  | some c => isWordChar c

/-- The email pattern body `[\w\.-]+@[\w\.-]+\.\w+` (fuel bounds the
unbounded repetitions). -/
def emailCore (n : Nat) : Parses :=
  pThen (pPlusF n (pCh isEmailChar))
    (pThen (pCh (· == '@'))
      (pThen (pPlusF n (pCh isEmailChar))
        (pThen (pCh (· == '.')) (pPlusF n (pCh isWordChar)))))

/-- One attempt of `\b[\w\.-]+@[\w\.-]+\.\w+\b` at the current position;
`prev` is the character before the position (for `\b`).  Returns the
first (highest-priority) parse whose trailing boundary also holds. -/
def emailMatchAt (prev : Option Char) (cs : List Char) :
    Option (List Char × List Char) :=
  if wordOpt prev == wordOpt cs.head? then none
  else
    (emailCore cs.length cs).findSome? (fun pr =>
      if wordOpt pr.1.getLast? == wordOpt pr.2.head? then none else some pr)

/-- `re.findall` scan for the email pattern: try each position left to
right, continue after each (non-empty) match. -/
def emailScanGo (prev : Option Char) (cs : List Char) : Nat → List (List Char)
  | 0 => []
  | fuel + 1 =>
    match cs with
    | [] => []
    | c :: rest =>
      match emailMatchAt prev cs with
      | some pr => pr.1 :: emailScanGo pr.1.getLast? pr.2 fuel
      | none => emailScanGo (some c) rest fuel

/-- Line 71: `re.findall(r"\b[\w\.-]+@[\w\.-]+\.\w+\b", body)`. -/
def emailFindall (s : String) : List String :=
  (emailScanGo none s.data (s.data.length + 1)).map String.mk

/-- Python `\s` (space, tab, newline, carriage return, vertical tab,
form feed). -/
def isSpaceChar (c : Char) : Bool :=
  c == ' ' || c == '\t' || c == '\n' || c == '\r' ||
    c == Char.ofNat 11 || c == Char.ofNat 12

/-- The separator class `[-\.\s]` of the phone pattern. -/
def isSepChar (c : Char) : Bool := c == '-' || c == '.' || isSpaceChar c

/-- The capture group `\+?\d{1,3}[-\.\s]?` of the phone pattern. -/
def phoneGroupCore : Parses :=
  pThen (pOpt (pCh (· == '+'))) (pThen (pRep13 (pCh Char.isDigit)) (pOpt (pCh isSepChar)))

/-- The rest of the phone pattern:
`\(?\d{3}\)?[-\.\s]?\d{3}[-\.\s]?\d{4}`. -/
def phoneTail : Parses :=
  pThen (pOpt (pCh (· == '(')))
    (pThen (pRep 3 (pCh Char.isDigit))
      (pThen (pOpt (pCh (· == ')')))
        (pThen (pOpt (pCh isSepChar))
          (pThen (pRep 3 (pCh Char.isDigit))
            (pThen (pOpt (pCh isSepChar)) (pRep 4 (pCh Char.isDigit)))))))

/-- One attempt of the phone pattern at the current position.  The whole
optional group is tried first (its alternatives in greedy order), then
skipped (an unmatched group captures `""`, as Python `findall` reports).
Returns (capture, full match, rest). -/
def phoneMatchAt (cs : List Char) :
    Option (List Char × List Char × List Char) :=
  ((phoneGroupCore cs) ++ [([], cs)]).findSome? (fun (gr : List Char × List Char) =>
    match phoneTail gr.2 with
    | [] => none
    | tr :: _ => some (gr.1, gr.1 ++ tr.1, tr.2))

/-- `re.findall` scan for the phone pattern, collecting
(capture group, full match) per match. -/
def phoneScanGo (cs : List Char) : Nat → List (List Char × List Char)
  | 0 => []
  | fuel + 1 =>
    match cs with
    | [] => []
    | _ :: rest =>
      match phoneMatchAt cs with
      | some r => (r.1, r.2.1) :: phoneScanGo r.2.2 fuel
      | none => phoneScanGo rest fuel

/-- All phone-pattern matches of a body: (capture group, full match). -/
def phoneFindallPairs (s : String) : List (String × String) :=
  (phoneScanGo s.data (s.data.length + 1)).map
    (fun p => (String.mk p.1, String.mk p.2))

/-- Lines 72-74: what `re.findall` actually returns for the phone
pattern — the pattern holds exactly one capture group, so Python
returns the group of each match (`""` when the group did not
participate), not the full matched substring.  Line 76's
`"".join(p)` is the identity on these strings. -/
def phoneCapturesOf (s : String) : List String :=
  (phoneFindallPairs s).map (·.1)

/-- The full substrings matched by the phone pattern (what the spec
describes `phonesInBody` to hold). -/
def phoneFullMatchesOf (s : String) : List String :=
  (phoneFindallPairs s).map (·.2)

/-- `dict.fromkeys` deduplication: keep the first occurrence of each
element, preserving order. -/
def dedupFirstAux (seen : List String) : List String → List String
  | [] => []
  | x :: xs =>
    if x ∈ seen then dedupFirstAux seen xs
    else x :: dedupFirstAux (x :: seen) xs

/-- `list(dict.fromkeys(l))`. -/
def dedupFirst (l : List String) : List String := dedupFirstAux [] l

/-- Line 75: the deduplicated email matches of a body. -/
def emailEntriesOf (body : String) : List String :=
  dedupFirst (emailFindall body)

/-- Lines 76-77: the deduplicated phone-pattern `findall` results
(capture-group strings) of a body. -/
def phoneEntriesOf (body : String) : List String :=
  dedupFirst (phoneCapturesOf body)

/-- Line 95: `", ".join(emails_in_body)`. -/
def emailsInBodyStr (body : String) : String :=
  String.intercalate ", " (emailEntriesOf body)

/-- Line 96: `", ".join(phones_in_body)`. -/
def phonesInBodyStr (body : String) : String :=
  String.intercalate ", " (phoneEntriesOf body)

/-! ## Messages, attachments and the batch decoder (lines 20-103) -/

/-- One entry of `msg.attachments`: a dict that may carry a
`"filename"` and a `"content"` key. -/
structure Attachment where
  filename : Option String
  content : Option Data
deriving DecidableEq, Repr

/-- A normalized message record (the dict appended at lines 89-98). -/
structure Message where
  date : Option DateTime
  subject : String
  sender : String
  recipients : String
  body : String
  emailsInBody : String
  phonesInBody : String
  attachments : List (String × String)
deriving DecidableEq, Repr

/-- The attachment store: a Python dict in insertion order. -/
abbrev Store := List (String × Data)

/-- Line 83: `key = f"{len(attachments_storage)}_{fname}"`. -/
def mkKey (n : Nat) (fname : String) : String :=
  toString n ++ "_" ++ fname

/-- Python dict assignment `d[k] = v`: replace in place if the key
exists, else append. -/
def storeSet (st : Store) (k : String) (v : Data) : Store :=
  if st.any (fun p => p.1 == k) then
    st.map (fun p => if p.1 == k then (k, v) else p)
  else st ++ [(k, v)]

/-- Lines 80-84: register each attachment's bytes under
`f"{len(attachments_storage)}_{fname}"` where `fname` is
`att.get("filename", "attachment")` and the bytes are
`att.get("content", b"")`. -/
def registerAtts : Store → List Attachment → Store
  | st, [] => st
  | st, a :: rest =>
    registerAtts
      (storeSet st (mkKey st.length (a.filename.getD "attachment"))
        (a.content.getD [])) rest

/-- Lines 86-87: `[(att["filename"], f"{i}_{att['filename']}") for i, att
in enumerate(msg.attachments)]`; `att["filename"]` raises `KeyError`
when the key is absent. -/
def attachmentListOf (atts : List Attachment) :
    Except String (List (String × String)) :=
  atts.enum.mapM (fun ia =>
    match ia.2.filename with
    | none => Except.error "KeyError: filename"
    | some f => Except.ok (f, mkKey ia.1 f))

/-- Lines 89-98: the message record built from the decoded properties
and the per-message attachment reference list. -/
def buildMessage (p : MsgProps) (attList : List (String × String)) : Message :=
  let b := bodyOf p
  { date := extractDate p
    subject := subjectOf p
    sender := senderOf p
    recipients := recipientsOf p
    body := b
    emailsInBody := emailsInBodyStr b
    phonesInBody := phonesInBodyStr b
    attachments := attList }

/-- One uploaded `.msg` file as seen through `MsOxMessage`: either the
parse succeeds, yielding a property map and the attachment dicts, or
the external parser raises. -/
inductive MsgInput where
  | ok (props : MsgProps) (atts : List Attachment)
  | bad (err : String)
deriving DecidableEq, Repr

/-- The loop body of `parse_msg_files` (lines 33-101): any raised
exception aborts the whole call — an `Except.error` carries no partial
message list and no partial store. -/
def pmfGo : List MsgInput → List Message → Store →
    Except String (List Message × Store)
  | [], msgs, store => Except.ok (msgs, store)
  | .bad e :: _, _, _ => Except.error e
  | .ok props atts :: rest, msgs, store =>
    let store' := registerAtts store atts
    match attachmentListOf atts with
    | Except.error e => Except.error e
    | Except.ok attList =>
      pmfGo rest (msgs ++ [buildMessage props attList]) store'

/-- `parse_msg_files` (lines 20-103).  `parse_zip_file` (lines 110-139)
is this function applied to every discovered `.msg` entry of the
archive, in directory-walk order. -/
def parseMsgFiles (inputs : List MsgInput) :
    Except String (List Message × Store) :=
  pmfGo inputs [] []

/-! ## Filter engine (module-level loop, lines 357-380) -/

/-- The sidebar filter inputs.  The six text fields and the checkbox
can be empty/false; the two date widgets always hold a date (lines
354-355), so the date range is always active. -/
structure FilterCriteria where
  subjFilter : String
  senderFilter : String
  recFilter : String
  emailFilter : String
  phoneFilter : String
  bodyFilter : String
  hasAttach : Bool
  startDate : Date
  endDate : Date
deriving DecidableEq, Repr

/-- Python `str.lower()` (ASCII model). -/
def lowerStr (s : String) : String := s.map Char.toLower

/-- `needle` begins `hay`. -/
def leadsWith : List Char → List Char → Bool
  | [], _ => true
  | _ :: _, [] => false
  | a :: as, b :: bs => a == b && leadsWith as bs

/-- Python substring containment `needle in hay`. -/
def subIn (needle : List Char) : List Char → Bool
  | [] => leadsWith needle []
  | c :: t => leadsWith needle (c :: t) || subIn needle t

/-- Python `needle in hay` on strings. -/
def strIn (needle hay : String) : Bool := subIn needle.data hay.data

/-- Lines 376-379: the date test.  A message with `date = None` skips
the range check entirely; otherwise its calendar date must not fall
before `start_date` nor after `end_date`. -/
def dateOkB (d1 d2 : Date) : Option DateTime → Bool
  | none => true
  | some dt => !(dateLt dt.date d1 || dateLt d2 dt.date)

/-- Lines 359-380: a message survives the filter loop (no `continue`
fires).  An empty text field or unchecked box makes its test vacuous. -/
def passes (c : FilterCriteria) (m : Message) : Bool :=
  (c.subjFilter == "" || strIn (lowerStr c.subjFilter) (lowerStr m.subject)) &&
  (c.senderFilter == "" || strIn (lowerStr c.senderFilter) (lowerStr m.sender)) &&
  (c.recFilter == "" ||
    (strIn (lowerStr c.recFilter) (lowerStr m.sender) ||
     strIn (lowerStr c.recFilter) (lowerStr m.recipients))) &&
  (c.emailFilter == "" || strIn (lowerStr c.emailFilter) (lowerStr m.emailsInBody)) &&
  (c.phoneFilter == "" || strIn (lowerStr c.phoneFilter) (lowerStr m.phonesInBody)) &&
  (c.bodyFilter == "" || strIn (lowerStr c.bodyFilter) (lowerStr m.body)) &&
  (!c.hasAttach || !(m.attachments.length == 0)) &&
  dateOkB c.startDate c.endDate m.date

/-- The filter loop: the surviving messages in original order. -/
def filterMessages (c : FilterCriteria) (msgs : List Message) : List Message :=
  msgs.filter (passes c)

/-! ## Archive splitter (`create_split_zips`, lines 254-300) -/

/-- One output ZIP part, as its ordered list of (stored name, bytes)
entries; part `n` (1-based position in the output list) is written as
`attachments_part{n}.zip`. -/
abbrev Shard := List (String × Data)

/-- The byte size the splitter accounts for a shard: the sum of the raw
entry lengths (`current_size`). -/
def shardSize (s : Shard) : Nat := (s.map (fun it => it.2.length)).sum

/-- Entries with non-empty bytes in a shard. -/
def posCount (s : Shard) : Nat := (s.filter (fun it => it.2.length != 0)).length

/-- The characters after the first underscore, if any. -/
def afterUnderscore : List Char → Option (List Char)
  | [] => none
  | '_' :: r => some r
  | _ :: r => afterUnderscore r

/-- Line 280: `fname = key.split("_", 1)[1]` — the key with its counter
stripped; indexing raises `IndexError` when the key holds no
underscore. -/
def splitKeyName (k : String) : Option String :=
  (afterUnderscore k.data).map String.mk

/-- Total version of `splitKeyName` for statements (under a successful
run every key holds an underscore, so the default is never used). -/
def stripD (k : String) : String := (splitKeyName k).getD k

/-- The loop of `create_split_zips` (lines 279-298): `cur`/`size` are
the open shard and its accounted size, `acc` the finalized shards.
Finalization before an item fires only when the accounted size is
positive (line 283: `current_size + file_size > size_limit and
current_size > 0`); the trailing shard is always finalized (line 296:
`if zf:` — a `ZipFile` object is always truthy). -/
def cszGo (limit : Nat) : List (String × Data) → Shard → Nat → List Shard →
    Except String (List Shard)
  | [], cur, _, acc => Except.ok (acc ++ [cur])
  | kd :: rest, cur, size, acc =>
    match splitKeyName kd.1 with
    | none => Except.error "IndexError"
    | some f =>
      if limit < size + kd.2.length ∧ 0 < size then
        cszGo limit rest [(f, kd.2)] kd.2.length (acc ++ [cur])
      else
        cszGo limit rest (cur ++ [(f, kd.2)]) (size + kd.2.length) acc

/-- `create_split_zips(attachments_storage, size_limit)`: the items are
the store's entries in insertion order; the default limit is
`190 * 1024 * 1024`. -/
def createSplitZips (items : List (String × Data)) (limit : Nat) :
    Except String (List Shard) :=
  cszGo limit items [] 0 []

/-! ## Concrete inputs used by the claim theorems -/

/-- A property map with every key absent. -/
def propsEmpty : MsgProps := ⟨none, none, none, none, none, none, none, none, none, none⟩

/-- Epoch zero, the sentinel timestamp the spec postulates. -/
def epochDT : DateTime := ⟨⟨1970, 1, 1⟩, 0, 0, 0⟩

/-- A decoded message with no date and no other content. -/
def msgNoDate : Message := buildMessage propsEmpty []

/-- A decoded message dated 1999-06-15. -/
def msg1999 : Message := { msgNoDate with date := some ⟨⟨1999, 6, 15⟩, 0, 0, 0⟩ }

/-- The most-empty filter the sidebar can produce: all six text inputs
empty, the attachment box unchecked — the two date widgets still hold
dates. -/
def emptyTextCriteria (d1 d2 : Date) : FilterCriteria :=
  ⟨"", "", "", "", "", "", false, d1, d2⟩

/-- A property map whose `To` list holds an empty value. -/
def props9 : MsgProps := { propsEmpty with toList := some ["", "x@y.z"] }

/-- A property map with ordinary non-empty recipient values. -/
def props9w : MsgProps :=
  { propsEmpty with toList := some ["a@b.c"], ccList := some ["d@e.f"] }

/-- Two parsed `.msg` files, each carrying one attachment. -/
def c1inputs : List MsgInput :=
  [MsgInput.ok propsEmpty [⟨some "a.txt", some [1]⟩],
   MsgInput.ok propsEmpty [⟨some "b.txt", some [2]⟩]]

/-! ## Helper lemmas -/

theorem mem_dedupFirstAux (l : List String) :
    ∀ (seen : List String) (y : String),
      y ∈ dedupFirstAux seen l ↔ (y ∈ l ∧ y ∉ seen) := by
  induction l with
  | nil => intro seen y; simp [dedupFirstAux]
  | cons x xs ih =>
    intro seen y
    by_cases hx : x ∈ seen
    · simp only [dedupFirstAux, if_pos hx, ih, List.mem_cons]
      constructor
      · rintro ⟨h1, h2⟩
        exact ⟨Or.inr h1, h2⟩
      · rintro ⟨h1 | h1, h2⟩
        · exact absurd (h1 ▸ hx) h2
        · exact ⟨h1, h2⟩
    · simp only [dedupFirstAux, if_neg hx, List.mem_cons, ih]
      constructor
      · rintro (rfl | ⟨h1, h2⟩)
        · exact ⟨Or.inl rfl, hx⟩
        · exact ⟨Or.inr h1, fun hy => h2 (Or.inr hy)⟩
      · rintro ⟨h1 | h1, h2⟩
        · exact Or.inl h1
        · by_cases hyx : y = x
          · exact Or.inl hyx
          · refine Or.inr ⟨h1, fun hy => ?_⟩
            rcases hy with h3 | h3
            · exact hyx h3
            · exact h2 h3

theorem dedupFirstAux_sublist (l : List String) :
    ∀ seen, List.Sublist (dedupFirstAux seen l) l := by
  induction l with
  | nil => intro seen; simp [dedupFirstAux]
  | cons x xs ih =>
    intro seen
    by_cases hx : x ∈ seen
    · simp only [dedupFirstAux, if_pos hx]
      exact (ih seen).trans (List.sublist_cons_self x xs)
    · simp only [dedupFirstAux, if_neg hx]
      exact List.Sublist.cons₂ x (ih (x :: seen))

theorem dedupFirstAux_nodup (l : List String) :
    ∀ seen, (dedupFirstAux seen l).Nodup := by
  induction l with
  | nil => intro seen; simp [dedupFirstAux]
  | cons x xs ih =>
    intro seen
    by_cases hx : x ∈ seen
    · simpa [dedupFirstAux, hx] using ih seen
    · simp only [dedupFirstAux, if_neg hx, List.nodup_cons]
      refine ⟨fun hmem => ?_, ih (x :: seen)⟩
      exact ((mem_dedupFirstAux xs (x :: seen) x).mp hmem).2
        (List.mem_cons_self x seen)

theorem shardSize_single (it : String × Data) : shardSize [it] = it.2.length := by
  simp [shardSize]

theorem shardSize_append (s : Shard) (it : String × Data) :
    shardSize (s ++ [it]) = shardSize s + it.2.length := by
  simp [shardSize]

theorem posCount_append (s : Shard) (it : String × Data) :
    posCount (s ++ [it]) = posCount s + (if it.2.length = 0 then 0 else 1) := by
  by_cases h : it.2.length = 0 <;> simp [posCount, List.filter_append, h]

theorem posCount_eq_zero (s : Shard) (h : shardSize s = 0) : posCount s = 0 := by
  induction s with
  | nil => rfl
  | cons it t ih =>
    have h2 : it.2.length = 0 ∧ shardSize t = 0 := by
      simpa [shardSize, Nat.add_eq_zero] using h
    simpa [posCount, List.filter_cons, h2.1] using ih h2.2

theorem cszGo_join (limit : Nat) :
    ∀ (rest : List (String × Data)) (cur : Shard) (size : Nat)
      (acc shards : List Shard),
      cszGo limit rest cur size acc = Except.ok shards →
      shards.flatten = acc.flatten ++ cur ++ rest.map (fun kd => (stripD kd.1, kd.2)) := by
  intro rest
  induction rest with
  | nil =>
    intro cur size acc shards h
    simp only [cszGo] at h
    cases h
    simp
  | cons kd rest ih =>
    intro cur size acc shards h
    cases hk : splitKeyName kd.1 with
    | none => simp [cszGo, hk] at h
    | some f =>
      simp only [cszGo, hk] at h
      by_cases hc : limit < size + kd.2.length ∧ 0 < size
      · rw [if_pos hc] at h
        have := ih _ _ _ _ h
        rw [this]
        simp [stripD, hk]
      · rw [if_neg hc] at h
        have := ih _ _ _ _ h
        rw [this]
        simp [stripD, hk]

theorem cszGo_inv (limit : Nat) :
    ∀ (rest : List (String × Data)) (cur : Shard) (size : Nat)
      (acc shards : List Shard),
      cszGo limit rest cur size acc = Except.ok shards →
      size = shardSize cur →
      (shardSize cur ≤ limit ∨ (limit < shardSize cur ∧ posCount cur = 1)) →
      (∀ s ∈ acc, shardSize s ≤ limit ∨ (limit < shardSize s ∧ posCount s = 1)) →
      ∀ s ∈ shards, shardSize s ≤ limit ∨ (limit < shardSize s ∧ posCount s = 1) := by
  intro rest
  induction rest with
  | nil =>
    intro cur size acc shards h hsz hcur hacc
    simp only [cszGo] at h
    cases h
    intro s hs
    rcases List.mem_append.mp hs with h1 | h1
    · exact hacc s h1
    · rcases List.mem_singleton.mp h1 with rfl
      exact hcur
  | cons kd rest ih =>
    intro cur size acc shards h hsz hcur hacc
    cases hk : splitKeyName kd.1 with
    | none => simp [cszGo, hk] at h
    | some f =>
      simp only [cszGo, hk] at h
      by_cases hc : limit < size + kd.2.length ∧ 0 < size
      · rw [if_pos hc] at h
        refine ih _ _ _ _ h (shardSize_single _).symm ?_ ?_
        · by_cases hd : kd.2.length ≤ limit
          · exact Or.inl (by simpa [shardSize_single] using hd)
          · have hlt : limit < kd.2.length := Nat.lt_of_not_le hd
            refine Or.inr ⟨by simpa [shardSize_single] using hlt, ?_⟩
            have hne : kd.2.length ≠ 0 := Nat.pos_iff_ne_zero.mp (Nat.lt_of_le_of_lt (Nat.zero_le _) hlt)
            simp [posCount, List.filter_cons, hne]
        · intro s hs
          rcases List.mem_append.mp hs with h1 | h1
          · exact hacc s h1
          · rcases List.mem_singleton.mp h1 with rfl
            exact hcur
      · rw [if_neg hc] at h
        refine ih _ _ _ _ h (by rw [hsz, shardSize_append]) ?_ hacc
        by_cases hb : size + kd.2.length ≤ limit
        · exact Or.inl (by rw [shardSize_append, ← hsz]; exact hb)
        · have hlt : limit < size + kd.2.length := Nat.lt_of_not_le hb
          have hsz0 : size = 0 := by
            by_contra hne
            exact hc ⟨hlt, Nat.pos_of_ne_zero hne⟩
          have hcur0 : shardSize cur = 0 := hsz.symm.trans hsz0
          have hdpos : kd.2.length ≠ 0 := by
            intro h0
            rw [hsz0, h0] at hlt
            exact Nat.lt_irrefl _ (Nat.lt_of_le_of_lt (Nat.zero_le _) hlt)
          refine Or.inr ⟨?_, ?_⟩
          · rw [shardSize_append, hcur0]
            simpa [hsz0] using hlt
          · rw [posCount_append, posCount_eq_zero cur hcur0, if_neg hdpos]

theorem cszGo_ne_nil (limit : Nat) :
    ∀ (rest : List (String × Data)) (cur : Shard) (size : Nat)
      (acc shards : List Shard),
      cszGo limit rest cur size acc = Except.ok shards → shards ≠ [] := by
  intro rest
  induction rest with
  | nil =>
    intro cur size acc shards h
    simp only [cszGo] at h
    cases h
    simp
  | cons kd rest ih =>
    intro cur size acc shards h
    cases hk : splitKeyName kd.1 with
    | none => simp [cszGo, hk] at h
    | some f =>
      simp only [cszGo, hk] at h
      by_cases hc : limit < size + kd.2.length ∧ 0 < size
      · rw [if_pos hc] at h; exact ih _ _ _ _ h
      · rw [if_neg hc] at h; exact ih _ _ _ _ h

theorem cszGo_all_ne_nil (limit : Nat) :
    ∀ (rest : List (String × Data)) (cur : Shard) (size : Nat)
      (acc shards : List Shard),
      cszGo limit rest cur size acc = Except.ok shards →
      cur ≠ [] → (∀ s ∈ acc, s ≠ []) → ∀ s ∈ shards, s ≠ [] := by
  intro rest
  induction rest with
  | nil =>
    intro cur size acc shards h hcur hacc
    simp only [cszGo] at h
    cases h
    intro s hs
    rcases List.mem_append.mp hs with h1 | h1
    · exact hacc s h1
    · rcases List.mem_singleton.mp h1 with rfl
      exact hcur
  | cons kd rest ih =>
    intro cur size acc shards h hcur hacc
    cases hk : splitKeyName kd.1 with
    | none => simp [cszGo, hk] at h
    | some f =>
      simp only [cszGo, hk] at h
      by_cases hc : limit < size + kd.2.length ∧ 0 < size
      · rw [if_pos hc] at h
        refine ih _ _ _ _ h (by simp) ?_
        intro s hs
        rcases List.mem_append.mp hs with h1 | h1
        · exact hacc s h1
        · rcases List.mem_singleton.mp h1 with rfl
          exact hcur
      · rw [if_neg hc] at h
        exact ih _ _ _ _ h (by simp) hacc

theorem pmfGo_bad :
    ∀ (inputs : List MsgInput) (e : String) (msgs : List Message) (store : Store),
      MsgInput.bad e ∈ inputs →
      ∃ err, pmfGo inputs msgs store = Except.error err := by
  intro inputs
  induction inputs with
  | nil => intro e msgs store h; cases h
  | cons i rest ih =>
    intro e msgs store h
    cases i with
    | bad e2 => exact ⟨e2, rfl⟩
    | ok props atts =>
      have hm : MsgInput.bad e ∈ rest := by
        rcases List.mem_cons.mp h with h1 | h1
        · simp at h1
        · exact h1
      cases hal : attachmentListOf atts with
      | error err => exact ⟨err, by simp [pmfGo, hal]⟩
      | ok attList =>
        obtain ⟨err, herr⟩ := ih e (msgs ++ [buildMessage props attList])
          (registerAtts store atts) hm
        exact ⟨err, by simp [pmfGo, hal, herr]⟩

/-! ## Claims -/

/-- C1: the store keys are unique (session counter `0_a.txt`, `1_b.txt`),
but the key recorded in a message's attachment reference uses the
per-message `enumerate` index, so the second message's reference
`0_b.txt` does not address its bytes (stored under `1_b.txt`) — it is
not a key of the store at all. -/
theorem c1_attachment_ref_key_mismatch :
    (parseMsgFiles c1inputs).map
        (fun r => (r.1.map Message.attachments, r.2.map Prod.fst)) =
      Except.ok ([[("a.txt", "0_a.txt")], [("b.txt", "0_b.txt")]],
        ["0_a.txt", "1_b.txt"]) ∧
    "0_b.txt" ∉ (["0_a.txt", "1_b.txt"] : List String) :=
  ⟨rfl, by decide⟩

/-- C2: on the body `"555-123-4567"` the phone pattern matches the full
substring `"555-123-4567"`, but `re.findall` returns the capture-group
list `[""]` (the pattern holds one group, the optional country code,
unmatched here), so the code records `[""]` instead of the matched
substring. -/
theorem c2_phone_findall_captures_not_matches :
    phoneCapturesOf "555-123-4567" = [""] ∧
    phoneEntriesOf "555-123-4567" = [""] ∧
    phoneFullMatchesOf "555-123-4567" = ["555-123-4567"] :=
  ⟨rfl, rfl, rfl⟩

/-- C3 counterexample: a message whose source has no date decodes with
`date = none` — the date IS absent, and in particular is not the
epoch-zero sentinel. -/
theorem c3_counterexample_date_absent :
    (parseMsgFiles [MsgInput.ok propsEmpty []]).map
        (fun r => r.1.map Message.date) = Except.ok [none] ∧
    (none : Option DateTime) ≠ some epochDT :=
  ⟨rfl, by decide⟩

/-- C3 (amended): whenever the source date is missing or textual but
unparseable, the decoded date is `none` (absent), not a sentinel
timestamp. -/
theorem c3_missing_or_unparseable_date_is_none (p : MsgProps)
    (h : dateCandidate p = none ∨
      ∃ s, dateCandidate p = some (DateProp.str s) ∧ parseIso s = none) :
    extractDate p = none := by
  rcases h with h | ⟨s, h1, h2⟩
  · simp [extractDate, h]
  · simp [extractDate, h1, h2]

theorem c3_witness : extractDate propsEmpty = none :=
  c3_missing_or_unparseable_date_is_none propsEmpty (Or.inl rfl)

/-- C4 counterexample: with a zero-byte item followed by an oversized
item, the finalize guard `current_size > 0` does not fire, producing a
single shard of two items whose total size exceeds the limit — the
claimed exception (a shard of exactly one item) does not cover it. -/
theorem c4_counterexample_zero_size_items :
    createSplitZips [("0_a", []), ("1_b", [7, 7])] 1 =
      Except.ok [[("a", []), ("b", [7, 7])]] ∧
    ¬ (∀ s ∈ ([[("a", []), ("b", [7, 7])]] : List Shard),
        shardSize s ≤ 1 ∨ (s.length = 1 ∧ 1 < shardSize s)) :=
  ⟨rfl, by decide⟩

/-- C4 (amended): every successful run yields shards whose total size is
at most the limit, except shards holding exactly one positive-size item
(whose own size exceeds the limit, possibly alongside zero-byte items);
concatenating the shards in order reproduces the input items exactly, in
order, with each stored name being the key minus its counter part. -/
theorem c4_split_invariant_and_concat (items : List (String × Data))
    (limit : Nat) (shards : List Shard)
    (h : createSplitZips items limit = Except.ok shards) :
    (∀ s ∈ shards, shardSize s ≤ limit ∨ (limit < shardSize s ∧ posCount s = 1)) ∧
    shards.flatten = items.map (fun kd => (stripD kd.1, kd.2)) := by
  constructor
  · exact cszGo_inv limit items [] 0 [] shards h rfl
      (Or.inl (by simp [shardSize])) (by simp)
  · simpa using cszGo_join limit items [] 0 [] shards h

theorem c4_witness :
    (∀ s ∈ ([[("a", [5])]] : List Shard),
        shardSize s ≤ 10 ∨ (10 < shardSize s ∧ posCount s = 1)) ∧
    (([[("a", [5])]] : List Shard)).flatten =
      ([("0_a", [5])] : List (String × Data)).map (fun kd => (stripD kd.1, kd.2)) :=
  c4_split_invariant_and_concat [("0_a", [5])] 10 [[("a", [5])]] rfl

/-- C5 counterexample: a message with an absent (unknown) date is
INCLUDED under an active date range that excludes the sentinel's
calendar date 1970-01-01 (which lies before the range, as the second
conjunct records) — the claim asserts it would be excluded. -/
theorem c5_counterexample_absent_date_included :
    filterMessages (emptyTextCriteria ⟨2000, 1, 1⟩ ⟨2000, 12, 31⟩) [msgNoDate] =
      [msgNoDate] ∧
    dateLt ⟨1970, 1, 1⟩ ⟨2000, 1, 1⟩ = true :=
  ⟨rfl, rfl⟩

/-- C5 (amended): a message with an absent date bypasses the date-range
test entirely — whether it passes the filter does not depend on the
range bounds at all. -/
theorem c5_absent_date_ignores_range (c : FilterCriteria) (m : Message)
    (d1 d2 : Date) (h : m.date = none) :
    passes c m = passes { c with startDate := d1, endDate := d2 } m := by
  simp [passes, dateOkB, h]

theorem c5_witness :
    passes (emptyTextCriteria ⟨2000, 1, 1⟩ ⟨2000, 12, 31⟩) msgNoDate =
      passes { emptyTextCriteria ⟨2000, 1, 1⟩ ⟨2000, 12, 31⟩ with
        startDate := ⟨1990, 1, 1⟩, endDate := ⟨1991, 1, 1⟩ } msgNoDate :=
  c5_absent_date_ignores_range (emptyTextCriteria ⟨2000, 1, 1⟩ ⟨2000, 12, 31⟩)
    msgNoDate ⟨1990, 1, 1⟩ ⟨1991, 1, 1⟩ rfl

/-- C6 counterexample: with every text criterion empty and the
attachment box unchecked, the always-active date widgets still exclude
a message dated 1999-06-15 from the range 2000-01-01..2020-12-31, so
filtering with the emptiest possible criteria is not the identity. -/
theorem c6_counterexample_date_range_always_active :
    filterMessages (emptyTextCriteria ⟨2000, 1, 1⟩ ⟨2020, 12, 31⟩) [msg1999] ≠
      [msg1999] := by
  decide

/-- C6 (amended): filtering with every text criterion empty and
`requireAttachment` false returns the input unchanged provided every
message's date is absent or falls inside the always-active
`[dateFrom, dateTo]` range. -/
theorem c6_empty_criteria_filter_identity (msgs : List Message) (d1 d2 : Date)
    (h : ∀ m ∈ msgs, dateOkB d1 d2 m.date = true) :
    filterMessages (emptyTextCriteria d1 d2) msgs = msgs := by
  unfold filterMessages
  refine List.filter_eq_self.mpr ?_
  intro m hm
  simp [passes, emptyTextCriteria, h m hm]

theorem c6_witness :
    filterMessages (emptyTextCriteria ⟨2000, 1, 1⟩ ⟨2001, 1, 1⟩) [msgNoDate] =
      [msgNoDate] :=
  c6_empty_criteria_filter_identity [msgNoDate] ⟨2000, 1, 1⟩ ⟨2001, 1, 1⟩
    (by decide)

/-- C7 counterexample: on an empty input the splitter still emits one
shard, and that shard holds zero items — `if zf:` is always truthy, so
the trailing shard is finalized unconditionally. -/
theorem c7_counterexample_empty_input_one_empty_shard :
    createSplitZips [] 5 = Except.ok [[]] ∧
    ([([] : Shard)] : List Shard) ≠ [] :=
  ⟨rfl, by decide⟩

/-- C7 (amended): the trailing shard is always finalized: the output is
never empty, an empty input yields exactly one shard with zero items,
and for a non-empty input no emitted shard holds zero items. -/
theorem c7_trailing_shard_always_finalized (items : List (String × Data))
    (limit : Nat) (shards : List Shard)
    (h : createSplitZips items limit = Except.ok shards) :
    shards ≠ [] ∧ (items = [] → shards = [[]]) ∧
      (items ≠ [] → ∀ s ∈ shards, s ≠ []) := by
  refine ⟨cszGo_ne_nil limit items [] 0 [] shards h, ?_, ?_⟩
  · rintro rfl
    simp only [createSplitZips, cszGo, List.nil_append] at h
    exact (Except.ok.inj h).symm
  · intro hne
    cases items with
    | nil => exact absurd rfl hne
    | cons kd rest =>
      cases hk : splitKeyName kd.1 with
      | none => simp [createSplitZips, cszGo, hk] at h
      | some f =>
        simp only [createSplitZips, cszGo, hk] at h
        rw [if_neg (by simp)] at h
        exact cszGo_all_ne_nil limit rest _ _ [] shards h (by simp) (by simp)

/-- C7 witness: a one-item input produces one non-empty shard. -/
theorem c7_witness :
    ([[("b", [3])]] : List Shard) ≠ [] ∧
    (([("1_b", [3])] : List (String × Data)) = [] →
      ([[("b", [3])]] : List Shard) = [[]]) ∧
    (([("1_b", [3])] : List (String × Data)) ≠ [] →
      ∀ s ∈ ([[("b", [3])]] : List Shard), s ≠ []) :=
  c7_trailing_shard_always_finalized [("1_b", [3])] 9 [[("b", [3])]] rfl

/-- C8: any entry whose external parse raises aborts the whole batch —
the result is an error and carries no partial message sequence and no
partial attachment store. -/
theorem c8_any_bad_entry_aborts_batch (inputs : List MsgInput) (e : String)
    (h : MsgInput.bad e ∈ inputs) :
    ∃ err, parseMsgFiles inputs = Except.error err :=
  pmfGo_bad inputs e [] [] h

theorem c8_witness :
    ∃ err, parseMsgFiles [MsgInput.ok propsEmpty [], MsgInput.bad "corrupt"] =
      Except.error err :=
  c8_any_bad_entry_aborts_batch
    [MsgInput.ok propsEmpty [], MsgInput.bad "corrupt"] "corrupt" (by simp)

/-- C9 counterexample: with `To = ["", "x@y.z"]` the code joins ALL
values, producing `", x@y.z"` — the empty value is not omitted, so the
result differs from the claimed join of the non-empty values. -/
theorem c9_counterexample_empty_value_kept :
    recipientsOf props9 = ", x@y.z" ∧ recipientsOf props9 ≠ "x@y.z" :=
  ⟨rfl, by decide⟩

/-- C9 (amended): `recipients` is the ", "-join of ALL To, Cc, Bcc
values in that order (absent or empty fields contribute nothing);
empty-string values inside a list are kept, so the claimed
join-of-non-empty-values description holds exactly when no value is the
empty string. -/
theorem c9_recipients_join_all_values (p : MsgProps)
    (h : "" ∉ recipientValues p) :
    recipientsOf p =
      String.intercalate ", " ((recipientValues p).filter (fun s => s != "")) := by
  have hall : ∀ a ∈ recipientValues p, (a != "") = true := by
    intro a ha
    have hne : a ≠ "" := fun hc => h (hc ▸ ha)
    simpa using hne
  rw [recipientsOf, List.filter_eq_self.mpr hall]

theorem c9_witness :
    recipientsOf props9w =
      String.intercalate ", "
        ((recipientValues props9w).filter (fun s => s != "")) :=
  c9_recipients_join_all_values props9w (by decide)

/-- C10 counterexample: for the body `"555-123-4567"` the joined
`phonesInBody` string is `""`, not the join of the deduplicated phone
matches (which would be `"555-123-4567"`) — the entries are the
capture-group values, not the matches. -/
theorem c10_counterexample_phone_join_not_matches :
    phonesInBodyStr "555-123-4567" = "" ∧
    String.intercalate ", " (dedupFirst (phoneFullMatchesOf "555-123-4567")) =
      "555-123-4567" ∧
    ("" : String) ≠ "555-123-4567" :=
  ⟨rfl, rfl, by decide⟩

/-- C10 (amended): for every body, the email entries are the deduplicated
email matches kept at their first occurrences in match order (a sublist
of the match list, duplicate-free, same membership), and the joined
string is their ", "-join; the phone entries relate the same way to the
capture-group values `findall` returns (not to the full matches).  Both
are deterministic functions of the body. -/
theorem c10_joined_entries_first_occurrence_order (body : String) :
    List.Sublist (emailEntriesOf body) (emailFindall body) ∧
    (emailEntriesOf body).Nodup ∧
    (∀ s, s ∈ emailEntriesOf body ↔ s ∈ emailFindall body) ∧
    emailsInBodyStr body = String.intercalate ", " (emailEntriesOf body) ∧
    List.Sublist (phoneEntriesOf body) (phoneCapturesOf body) ∧
    (phoneEntriesOf body).Nodup ∧
    (∀ s, s ∈ phoneEntriesOf body ↔ s ∈ phoneCapturesOf body) ∧
    phonesInBodyStr body = String.intercalate ", " (phoneEntriesOf body) := by
  refine ⟨dedupFirstAux_sublist (emailFindall body) [],
    dedupFirstAux_nodup (emailFindall body) [], ?_, rfl,
    dedupFirstAux_sublist (phoneCapturesOf body) [],
    dedupFirstAux_nodup (phoneCapturesOf body) [], ?_, rfl⟩
  · intro s
    have := mem_dedupFirstAux (emailFindall body) [] s
    simpa [emailEntriesOf, dedupFirst] using this
  · intro s
    have := mem_dedupFirstAux (phoneCapturesOf body) [] s
    simpa [phoneEntriesOf, dedupFirst] using this

end EmailForensics
